import Mathlib

/-!
Shallow embedding of `cli-plugins/plugin/plugin.go`: the CLI plugin bootstrap
and connection-bridging layer.  The embedding covers the global flag
partitioner inside `withPluginClientConn`, the metadata subcommand built by
`newMetadataSubcommand` (including the JSON encoding it performs), the command
tree assembled by `runPlugin`/`newPluginCommand` with its deferred
client-initializer hook, and the error-to-exit-status mapping in `Run`.
-/

/-- The flag-accumulation loop of `withPluginClientConn` (plugin.go, the
`for _, a := range os.Args[1:]` loop): scan the argument vector left to
right, accumulating each token and stopping at (and excluding) the first
token equal to the plugin name. -/
def accumulateFlags (name : String) : List String → List String
  | [] => []
  | a :: rest => if a = name then [] else a :: accumulateFlags name rest

/-- The complete argument list `withPluginClientConn` hands to the connection
helper: the accumulated global arguments followed by the two fixed tokens
appended by `flags = append(flags, "system", "dial-stdio")`. -/
def withPluginClientConnFlags (name : String) (args : List String) : List String :=
  accumulateFlags name args ++ ["system", "dial-stdio"]

/-- If the plugin name occurs in the argument vector, the accumulation loop
returns exactly the tokens strictly before its first occurrence. -/
theorem accumulateFlags_split (name : String) (args : List String)
    (h : name ∈ args) :
    ∃ rest, args = accumulateFlags name args ++ name :: rest
      ∧ name ∉ accumulateFlags name args := by
  induction args with
  | nil => cases h
  | cons a tl ih =>
    by_cases ha : a = name
    · refine ⟨tl, ?_, ?_⟩ <;> simp [accumulateFlags, ha]
    · have htl : name ∈ tl := by
        rcases List.mem_cons.mp h with h1 | h2
        · exact absurd h1.symm ha
        · exact h2
      obtain ⟨rest, heq, hnot⟩ := ih htl
      refine ⟨rest, ?_, ?_⟩
      · simp only [accumulateFlags, if_neg ha, List.cons_append]
        exact congrArg (a :: ·) heq
      · simp only [accumulateFlags, if_neg ha]
        intro hmem
        rcases List.mem_cons.mp hmem with h1 | h2
        · exact ha h1.symm
        · exact hnot h2

/-- If the plugin name never occurs in the argument vector, the accumulation
loop returns the whole vector. -/
theorem accumulateFlags_of_not_mem (name : String) (args : List String)
    (h : name ∉ args) : accumulateFlags name args = args := by
  induction args with
  | nil => rfl
  | cons a tl ih =>
    have ha : ¬(a = name) := by
      intro e
      exact h (by rw [← e]; exact List.mem_cons_self a tl)
    have htl : name ∉ tl := fun hm => h (List.mem_cons_of_mem a hm)
    simp [accumulateFlags, ha, ih htl]

/-- C1: for every argument vector containing the plugin name, the partitioner
output is the tokens strictly preceding the first occurrence of the name (even
when that occurrence is the value of an earlier flag), followed by exactly
"system" and "dial-stdio"; in particular the spec's example vector yields
["--config","/tmp/c","system","dial-stdio"]. -/
theorem withPluginClientConn_splits_at_first_name (name : String)
    (args : List String) (h : name ∈ args) :
    (∃ front rest, args = front ++ name :: rest ∧ name ∉ front ∧
      withPluginClientConnFlags name args = front ++ ["system", "dial-stdio"]) ∧
    withPluginClientConnFlags "myplugin" ["--config", "/tmp/c", "myplugin", "ls", "-a"]
      = ["--config", "/tmp/c", "system", "dial-stdio"] := by
  obtain ⟨rest, heq, hnot⟩ := accumulateFlags_split name args h
  exact ⟨⟨accumulateFlags name args, rest, heq, hnot, rfl⟩, rfl⟩

/-- C1 witness: the split theorem instantiated at the spec's example input. -/
theorem withPluginClientConn_splits_at_first_name_witness :
    (∃ front rest, (["--config", "/tmp/c", "myplugin", "ls", "-a"] : List String)
        = front ++ "myplugin" :: rest ∧ "myplugin" ∉ front ∧
      withPluginClientConnFlags "myplugin" ["--config", "/tmp/c", "myplugin", "ls", "-a"]
        = front ++ ["system", "dial-stdio"]) ∧
    withPluginClientConnFlags "myplugin" ["--config", "/tmp/c", "myplugin", "ls", "-a"]
      = ["--config", "/tmp/c", "system", "dial-stdio"] :=
  withPluginClientConn_splits_at_first_name "myplugin"
    ["--config", "/tmp/c", "myplugin", "ls", "-a"] (by decide)

/-- C3: for every argument vector in which the plugin name never appears, the
partitioner returns the entire vector followed by "system" and "dial-stdio"
(total function: no crash, no truncation). -/
theorem withPluginClientConn_name_absent (name : String) (args : List String)
    (h : name ∉ args) :
    withPluginClientConnFlags name args = args ++ ["system", "dial-stdio"] := by
  unfold withPluginClientConnFlags
  rw [accumulateFlags_of_not_mem name args h]

/-- C3 witness: the name-absent theorem at a concrete vector not containing
the plugin name. -/
theorem withPluginClientConn_name_absent_witness :
    withPluginClientConnFlags "myplugin" ["--config", "/tmp/c", "--tls"]
      = ["--config", "/tmp/c", "--tls", "system", "dial-stdio"] :=
  withPluginClientConn_name_absent "myplugin" ["--config", "/tmp/c", "--tls"]
    (by decide)

/-- Modelled from the spec: the structured failure type `cli.StatusError`
(declared in the `cli` package, outside the embedded source), carrying an
optional user-facing status message and a numeric exit code, together with
the unstructured error case.  `Run` distinguishes these two shapes with a
type assertion. -/
inductive RunError where
  | statusError (status : String) (statusCode : Int)
  | genericError (msg : String)
deriving DecidableEq

/-- Observable process termination of `Run`: the lines written to the error
stream (each line via Fprintln) and the process exit code. -/
structure RunOutcome where
  stderrLines : List String
  exitCode : Int
deriving DecidableEq

/-- The error-to-exit mapping at the tail of `Run` (plugin.go): on success the
process exits 0; on a `cli.StatusError` the status message is printed to the
error stream when non-empty and the process exits with the carried code,
substituting 1 when the carried code is 0; on any other error the error text
is printed and the process exits 1. -/
def runExitOutcome : Option RunError → RunOutcome
  | none => { stderrLines := [], exitCode := 0 }
  | some (RunError.statusError status statusCode) =>
      { stderrLines := if status = "" then [] else [status]
        exitCode := if statusCode = 0 then 1 else statusCode }
  | some (RunError.genericError msg) => { stderrLines := [msg], exitCode := 1 }

/-- C4: for every structured failure, the exit code is the carried code when
that code is nonzero and 1 when it is zero, and it is never 0. -/
theorem run_status_error_exit_nonzero (status : String) (statusCode : Int) :
    (runExitOutcome (some (RunError.statusError status statusCode))).exitCode
      = (if statusCode = 0 then 1 else statusCode) ∧
    (runExitOutcome (some (RunError.statusError status statusCode))).exitCode ≠ 0 := by
  refine ⟨rfl, ?_⟩
  by_cases hc : statusCode = 0 <;> simp [runExitOutcome, hc]

/-- C5: a structured failure writes its status message to the error stream
exactly when the message is non-empty; in particular message "M" with code 3
writes "M" and exits 3. -/
theorem run_status_error_message_to_stderr (status : String) (statusCode : Int) :
    (runExitOutcome (some (RunError.statusError status statusCode))).stderrLines
      = (if status = "" then [] else [status]) ∧
    runExitOutcome (some (RunError.statusError "M" 3))
      = { stderrLines := ["M"], exitCode := 3 } := by
  exact ⟨rfl, rfl⟩

/-- Modelled from the spec: the plugin `Metadata` record from the plugin
manager package (declared outside the embedded source).  Spec section 6 gives
its JSON shape as SchemaVersion?, Vendor?, Version?, ShortDescription, URL?,
Experimental? — optional fields omitted from the JSON when empty (or false),
and an always-present short-description string. -/
structure Metadata where
  SchemaVersion : String
  Vendor : String
  Version : String
  ShortDescription : String
  URL : String
  Experimental : Bool
deriving DecidableEq

/-- Lowercase hexadecimal digit, as used by Go's JSON encoder for \u escapes. -/
def hexDigit (n : Nat) : Char :=
  if n < 10 then Char.ofNat (48 + n) else Char.ofNat (87 + n)

/-- Character escaping of Go's `encoding/json` string encoder.  The quotation
mark, backslash and control characters are always escaped (newline, carriage
return and tab with their short forms, other controls as \u00xx), the line and
paragraph separators U+2028/U+2029 are always escaped, and the characters
<, > and & are escaped only when HTML escaping is on.  `newMetadataSubcommand`
calls `enc.SetEscapeHTML(false)`, so the encoder below is used with
`escapeHTML = false`. -/
def escapeJSONChar (escapeHTML : Bool) (c : Char) : String :=
  if c = '"' then "\\\""
  else if c = '\\' then "\\\\"
  else if c = '\n' then "\\n"
  else if c = '\r' then "\\r"
  else if c = '\t' then "\\t"
  else if c.toNat < 32 then
    "\\u00" ++ String.mk [hexDigit (c.toNat / 16), hexDigit (c.toNat % 16)]
  else if escapeHTML && (c = '<' || c = '>' || c = '&') then
    "\\u00" ++ String.mk [hexDigit (c.toNat / 16), hexDigit (c.toNat % 16)]
  else if c.toNat = 8232 then "\\u2028"
  else if c.toNat = 8233 then "\\u2029"
  else String.singleton c

/-- JSON string literal produced by Go's encoder with HTML escaping disabled,
as configured by `newMetadataSubcommand`. -/
def quoteJSONString (s : String) : String :=
  "\"" ++ String.join (s.data.map (escapeJSONChar false)) ++ "\""

/-- One indented key-value line of the JSON object, using the five-space
indent configured by `enc.SetIndent("", "     ")` and the ": " key separator
Go uses when indenting. -/
def renderLine (kv : String × String) : String :=
  "     " ++ quoteJSONString kv.1 ++ ": " ++ kv.2

/-- The indented field lines of a JSON object, separated by ",\n". -/
def renderFields : List (String × String) → String
  | [] => ""
  | kv :: rest =>
      renderLine kv ++ (if rest.isEmpty then "" else ",\n" ++ renderFields rest)

/-- The (key, encoded value) pairs Go's encoder emits for a `Metadata` value,
in declaration order, with empty optional fields omitted. -/
def metadataFields (m : Metadata) : List (String × String) :=
  (if m.SchemaVersion = "" then [] else [("SchemaVersion", quoteJSONString m.SchemaVersion)]) ++
  (if m.Vendor = "" then [] else [("Vendor", quoteJSONString m.Vendor)]) ++
  (if m.Version = "" then [] else [("Version", quoteJSONString m.Version)]) ++
  [("ShortDescription", quoteJSONString m.ShortDescription)] ++
  (if m.URL = "" then [] else [("URL", quoteJSONString m.URL)]) ++
  (if m.Experimental then [("Experimental", "true")] else [])

/-- The single indented JSON document Go's encoder produces for a `Metadata`
value (no trailing newline yet). -/
def metadataJSONBody (m : Metadata) : String :=
  if (metadataFields m).isEmpty then "\x7b\x7d"
  else "\x7b\n" ++ renderFields (metadataFields m) ++ "\n\x7d"

/-- The bytes `enc.Encode(meta)` writes to standard output inside the metadata
subcommand's RunE: the indented JSON document followed by one newline. -/
def encodeMetadata (m : Metadata) : String :=
  metadataJSONBody m ++ "\n"

/-- Associativity of string concatenation, used to rearrange encoder output. -/
theorem string_append_assoc (a b c : String) : a ++ b ++ c = a ++ (b ++ c) := by
  cases a with
  | mk la =>
    cases b with
    | mk lb =>
      cases c with
      | mk lc =>
        show String.mk (la ++ lb ++ lc) = String.mk (la ++ (lb ++ lc))
        rw [List.append_assoc]

/-- A client-initializer hook value stored in a command's PersistentPreRunE
field: either the connection-bridge initializer `runPlugin` installs
(`tcmd.Initialize(withPluginClientConn(plugin.Name()))`), or an arbitrary
hook a plugin author might have installed themselves. -/
inductive Hook where
  | bridgeInit (pluginName : String)
  | author (id : Nat)
deriving DecidableEq

/-- The cobra command fields this embedding uses: the command name, its Short
description, whether it is hidden, and its PersistentPreRunE hook. -/
structure Cmd where
  name : String
  short : String
  hidden : Bool
  persistentPreRunE : Option Hook
deriving DecidableEq

/-- Modelled from the spec: the fixed hidden metadata subcommand name
`manager.MetadataSubcommandName` (declared in the plugin manager package,
outside the embedded source): a single well-known hidden subcommand name. -/
def metadataSubcommandName : String := "docker-cli-plugin-metadata"

/-- Value-semantics model of the call `newMetadataSubcommand(plugin, meta)`:
Go passes `meta` by value, so the callee's conditional assignment
`meta.ShortDescription = plugin.Short` updates only the callee's own copy.
The pair is (the metadata captured by the subcommand's RunE closure, the
caller's record as the call returns). -/
def newMetadataSubcommandCall (pluginShort : String) (meta : Metadata) :
    Metadata × Metadata :=
  let served :=
    if meta.ShortDescription = "" then
      { meta with ShortDescription := pluginShort }
    else meta
  (served, meta)

/-- The metadata record the metadata subcommand's RunE closure serializes:
the author's record with the plugin command's Short description substituted
when the author left the short description empty. -/
def newMetadataSubcommandMeta (pluginShort : String) (meta : Metadata) : Metadata :=
  (newMetadataSubcommandCall pluginShort meta).1

/-- The hidden metadata subcommand built by `newMetadataSubcommand`: named by
the fixed metadata subcommand name, hidden, and with no PersistentPreRunE
hook of its own. -/
def newMetadataSubcommandCmd : Cmd :=
  { name := metadataSubcommandName
    short := ""
    hidden := true
    persistentPreRunE := none }

/-- The root command built by `newPluginCommand`.  Its PersistentPreRunE is
not set by the embedded source; the root scaffolding added by
`cli.SetupPluginRootCommand` is modelled from the spec (section 4.4), which
describes only flag/option scaffolding, so no hook. -/
def newPluginCommandRoot (name : String) : Cmd :=
  { name := "docker"
    short := "docker-" ++ name ++ " is a Docker CLI plugin"
    hidden := false
    persistentPreRunE := none }

/-- The command tree assembled by `runPlugin`/`newPluginCommand`: the root,
the plugin's own command, the hidden metadata sibling, and the metadata
record the metadata subcommand will serve. -/
structure PluginCommandTree where
  root : Cmd
  plugin : Cmd
  metadataCmd : Cmd
  servedMeta : Metadata
deriving DecidableEq

/-- The assembly performed by `runPlugin`: it builds the tree via
`newPluginCommand` (adding the plugin command and the metadata subcommand as
children of the root) and then unconditionally overwrites the plugin
command's PersistentPreRunE field with the deferred connection-bridge
initializer. -/
def runPluginAssemble (plugin : Cmd) (meta : Metadata) : PluginCommandTree :=
  { root := newPluginCommandRoot plugin.name
    plugin := { plugin with persistentPreRunE := some (Hook.bridgeInit plugin.name) }
    metadataCmd := newMetadataSubcommandCmd
    servedMeta := newMetadataSubcommandMeta plugin.short meta }

/-- Which child of the root the cobra dispatcher selected for execution. -/
inductive Selected where
  | pluginCmd
  | metadataCmd
deriving DecidableEq

/-- Cobra's persistent pre-run dispatch: when a command executes, cobra walks
from the executed command up through its parents and runs the first
PersistentPreRunE hook it finds (the executed command's own hook, else the
nearest ancestor's). -/
def firedPersistentPreRunE (t : PluginCommandTree) : Selected → Option Hook
  | Selected.pluginCmd =>
      match t.plugin.persistentPreRunE with
      | some h => some h
      | none => t.root.persistentPreRunE
  | Selected.metadataCmd =>
      match t.metadataCmd.persistentPreRunE with
      | some h => some h
      | none => t.root.persistentPreRunE

/-- The observable process state the embedded operations act on: the process
argument vector after the program name (`os.Args[1:]`), the re-exec override
environment variable (`manager.ReexecEnvvar`), whether a daemon is reachable,
the bytes written to standard output and standard error, and the list of
subprocesses spawned so far (program, arguments). -/
structure World where
  argv : List String
  reexecOverride : String
  daemonReachable : Bool
  stdout : String
  stderr : String
  spawned : List (String × List String)
deriving DecidableEq

/-- Running a PersistentPreRunE hook.  The connection-bridge initializer
resolves the program to re-exec (the override environment variable when
non-empty, else "docker") and spawns it with the partitioned global flags
plus "system" "dial-stdio"; an author hook is treated as a no-op here. -/
def runHook (h : Hook) (w : World) : World :=
  match h with
  | Hook.bridgeInit pluginName =>
      let cmd := if w.reexecOverride = "" then "docker" else w.reexecOverride
      { w with spawned := w.spawned ++ [(cmd, withPluginClientConnFlags pluginName w.argv)] }
  | Hook.author _ => w

/-- The metadata subcommand's RunE: encode the served metadata record to
standard output and succeed.  It touches neither the daemon, the error
stream, nor any subprocess. -/
def metadataRunE (meta : Metadata) (w : World) : World × Option RunError :=
  ({ w with stdout := w.stdout ++ encodeMetadata meta }, none)

/-- End-to-end execution of a metadata query against the assembled tree:
run the persistent pre-run hook cobra selects for the metadata subcommand
(if any), then the metadata subcommand's RunE. -/
def executeMetadataQuery (plugin : Cmd) (meta : Metadata) (w : World) :
    World × Option RunError :=
  let t := runPluginAssemble plugin meta
  let w1 :=
    match firedPersistentPreRunE t Selected.metadataCmd with
    | some h => runHook h w
    | none => w
  metadataRunE t.servedMeta w1

/-- The encoder's field list always contains the ShortDescription entry,
surrounded by the optional fields. -/
theorem metadataFields_decomp (m : Metadata) :
    ∃ l1 l2, metadataFields m
      = l1 ++ ("ShortDescription", quoteJSONString m.ShortDescription) :: l2 := by
  refine ⟨(if m.SchemaVersion = "" then [] else [("SchemaVersion", quoteJSONString m.SchemaVersion)]) ++
      (if m.Vendor = "" then [] else [("Vendor", quoteJSONString m.Vendor)]) ++
      (if m.Version = "" then [] else [("Version", quoteJSONString m.Version)]),
    (if m.URL = "" then [] else [("URL", quoteJSONString m.URL)]) ++
      (if m.Experimental then [("Experimental", "true")] else []), ?_⟩
  simp [metadataFields, List.append_assoc]

/-- Rendering a field list containing a given entry yields a string with that
entry's rendered line somewhere inside. -/
theorem renderFields_middle (kv : String × String) :
    ∀ l1 l2 : List (String × String), ∃ s1 s2,
      renderFields (l1 ++ kv :: l2) = s1 ++ renderLine kv ++ s2 := by
  intro l1
  induction l1 with
  | nil =>
    intro l2
    exact ⟨"", if l2.isEmpty then "" else ",\n" ++ renderFields l2, rfl⟩
  | cons a as ih =>
    intro l2
    obtain ⟨s1, s2, hs⟩ := ih l2
    refine ⟨renderLine a ++ ",\n" ++ s1, s2, ?_⟩
    have hne : (as ++ kv :: l2).isEmpty = false := by cases as <;> rfl
    show renderFields (a :: (as ++ kv :: l2)) = _
    simp only [renderFields, hne, Bool.false_eq_true, if_false, hs]
    simp only [string_append_assoc]

/-- Text of the short-description line as laid out by the five-space indent. -/
theorem renderLine_short_description (v : String) :
    renderLine ("ShortDescription", v) = "     \"ShortDescription\": " ++ v := rfl

/-- The encoded metadata document always contains the indented
short-description line for the encoded record's short-description value. -/
theorem encodeMetadata_contains_short_description (m : Metadata) :
    ∃ s1 s2, encodeMetadata m
      = s1 ++ ("     \"ShortDescription\": " ++ quoteJSONString m.ShortDescription) ++ s2 := by
  obtain ⟨l1, l2, hf⟩ := metadataFields_decomp m
  obtain ⟨s1, s2, hr⟩ :=
    renderFields_middle ("ShortDescription", quoteJSONString m.ShortDescription) l1 l2
  have hne : (l1 ++ ("ShortDescription", quoteJSONString m.ShortDescription) :: l2).isEmpty
      = false := by
    cases l1 <;> rfl
  rw [renderLine_short_description] at hr
  refine ⟨"\x7b\n" ++ s1, s2 ++ ("\n\x7d" ++ "\n"), ?_⟩
  simp only [encodeMetadata, metadataJSONBody, hf, hne, Bool.false_eq_true, if_false, hr]
  simp only [string_append_assoc]

/-- A metadata record with every optional field empty and an empty short
description. -/
def emptyMeta : Metadata := ⟨"", "", "", "", "", false⟩

/-- A concrete plugin command whose author declared a non-empty Short text. -/
def pluginWithShort : Cmd := ⟨"myplugin", "run myplugin", false, none⟩

/-- A concrete plugin command whose author declared an empty Short text. -/
def pluginNoShort : Cmd := ⟨"myplugin", "", false, none⟩

/-- A concrete process state used to instantiate the execution theorems. -/
def world0 : World :=
  ⟨["--config", "/tmp/c", "myplugin", "ls", "-a"], "", false, "", "", []⟩

/-- C2: the connection-bridge initializer is installed as the plugin
command's deferred PersistentPreRunE hook, so it fires when the plugin's real
command executes, while a metadata-only run fires no hook at all: no
subprocess is spawned, the query succeeds, its JSON lands on standard output,
and the run behaves identically whether or not a daemon is reachable. -/
theorem bridge_not_invoked_on_metadata_query (plugin : Cmd) (meta : Metadata)
    (w : World) :
    firedPersistentPreRunE (runPluginAssemble plugin meta) Selected.metadataCmd = none ∧
    firedPersistentPreRunE (runPluginAssemble plugin meta) Selected.pluginCmd
      = some (Hook.bridgeInit plugin.name) ∧
    (executeMetadataQuery plugin meta w).1.spawned = w.spawned ∧
    (executeMetadataQuery plugin meta w).2 = none ∧
    (executeMetadataQuery plugin meta w).1.stdout
      = w.stdout ++ encodeMetadata (newMetadataSubcommandMeta plugin.short meta) ∧
    (executeMetadataQuery plugin meta { w with daemonReachable := false }).1.stdout
      = (executeMetadataQuery plugin meta { w with daemonReachable := true }).1.stdout ∧
    (executeMetadataQuery plugin meta { w with daemonReachable := false }).2
      = (executeMetadataQuery plugin meta { w with daemonReachable := true }).2 :=
  ⟨rfl, rfl, rfl, rfl, rfl, rfl, rfl⟩

/-- C7: the metadata subcommand's RunE appends exactly one newline-terminated
JSON document to standard output, writes nothing to standard error, and
succeeds; HTML-style escaping is disabled, so the characters <, > and & pass
through the configured encoder unescaped, and the document is rendered with
the fixed five-space indent (shown byte-exactly on a concrete record). -/
theorem metadata_responder_output_shape (meta : Metadata) (w : World) :
    (metadataRunE meta w).1.stdout = w.stdout ++ (metadataJSONBody meta ++ "\n") ∧
    (metadataRunE meta w).1.stderr = w.stderr ∧
    (metadataRunE meta w).2 = none ∧
    escapeJSONChar false '<' = "<" ∧
    escapeJSONChar false '>' = ">" ∧
    escapeJSONChar false '&' = "&" ∧
    encodeMetadata ⟨"0.1.0", "acme", "", "hi", "", false⟩
      = "\x7b\n     \"SchemaVersion\": \"0.1.0\",\n     \"Vendor\": \"acme\",\n     \"ShortDescription\": \"hi\"\n\x7d\n" :=
  ⟨rfl, rfl, rfl, rfl, rfl, rfl, rfl⟩

/-- C8: the metadata responder is a deterministic function of the metadata
record: a single output string, depending only on the record, is appended on
every invocation, regardless of any other process state, so two identical
invocations produce byte-identical output; and a record whose description
holds literal <, > and & serializes with those bytes unescaped. -/
theorem metadata_responder_deterministic (meta : Metadata) :
    (∃ out : String, ∀ w : World,
      (metadataRunE meta w).1.stdout = w.stdout ++ out ∧
      (metadataRunE meta w).1.stderr = w.stderr ∧
      (metadataRunE meta w).2 = none) ∧
    List.IsInfix "a<b&c>d".data
      (encodeMetadata ⟨"", "", "", "a<b&c>d", "", false⟩).data :=
  ⟨⟨encodeMetadata meta, fun _ => ⟨rfl, rfl, rfl⟩⟩, by decide⟩

/-- C9: the author's metadata record is never mutated: the call that builds
the metadata subcommand receives the record by value and returns it to the
caller unchanged, even when the short-description default is substituted into
the served copy (in which case the served copy differs from the caller's
record), and a metadata query only reads the served copy. -/
theorem metadata_record_never_mutated (plugin : Cmd) (meta : Metadata)
    (w : World) :
    (newMetadataSubcommandCall plugin.short meta).2 = meta ∧
    (runPluginAssemble plugin meta).servedMeta
      = (newMetadataSubcommandCall plugin.short meta).1 ∧
    (meta.ShortDescription = "" → plugin.short ≠ "" →
      (newMetadataSubcommandCall plugin.short meta).1 ≠ meta) ∧
    (executeMetadataQuery plugin meta w).1.stdout
      = w.stdout ++ encodeMetadata (newMetadataSubcommandMeta plugin.short meta) := by
  refine ⟨rfl, rfl, ?_, rfl⟩
  intro h0 hps heq
  apply hps
  have h1 : (newMetadataSubcommandCall plugin.short meta).1.ShortDescription
      = meta.ShortDescription := congrArg Metadata.ShortDescription heq
  simp only [newMetadataSubcommandCall, h0, if_pos] at h1
  exact h1

/-- C9 witness: at a concrete plugin with non-empty Short text and an author
record with empty short description, the caller's record is returned
unchanged while the served copy differs from it. -/
theorem metadata_record_never_mutated_witness :
    (newMetadataSubcommandCall pluginWithShort.short emptyMeta).2 = emptyMeta ∧
    (newMetadataSubcommandCall pluginWithShort.short emptyMeta).1 ≠ emptyMeta :=
  ⟨(metadata_record_never_mutated pluginWithShort emptyMeta world0).1,
   (metadata_record_never_mutated pluginWithShort emptyMeta world0).2.2.1 rfl (by decide)⟩

/-- C10: runPlugin unconditionally overwrites the plugin command's
PersistentPreRunE field with the deferred client-initializer hook, so any
hook the author had installed there is discarded, whatever it was. -/
theorem runPlugin_overwrites_author_hook (plugin : Cmd) (meta : Metadata)
    (h0 : Option Hook) :
    (runPluginAssemble plugin meta).plugin.persistentPreRunE
      = some (Hook.bridgeInit plugin.name) ∧
    (runPluginAssemble { plugin with persistentPreRunE := h0 } meta).plugin.persistentPreRunE
      = some (Hook.bridgeInit plugin.name) :=
  ⟨rfl, rfl⟩

/-- C6 counterexample: with a plugin command whose own Short text is empty
and an author record with an empty short description, the served record's
short-description field is empty and the serialized JSON document carries an
empty short-description value, so the output does not round-trip to a record
with a non-empty short-description field. -/
theorem metadata_short_description_empty_counterexample :
    (runPluginAssemble pluginNoShort emptyMeta).servedMeta.ShortDescription = "" ∧
    encodeMetadata (runPluginAssemble pluginNoShort emptyMeta).servedMeta
      = "\x7b\n     \"ShortDescription\": \"\"\n\x7d\n" :=
  ⟨rfl, rfl⟩

/-- C6 (amended): when the author leaves the short description empty, the
responder substitutes the plugin command's own Short text at call time (not
stored back), otherwise the record is served as supplied; the serialized
document always carries the served short-description value on its indented
line, and that value is non-empty provided the plugin command declares a
non-empty Short text. -/
theorem metadata_short_description_default (meta : Metadata) (plugin : Cmd)
    (h : plugin.short ≠ "") :
    (runPluginAssemble plugin meta).servedMeta.ShortDescription ≠ "" ∧
    (meta.ShortDescription = "" →
      (runPluginAssemble plugin meta).servedMeta.ShortDescription = plugin.short) ∧
    (meta.ShortDescription ≠ "" →
      (runPluginAssemble plugin meta).servedMeta = meta) ∧
    (∃ s1 s2, encodeMetadata (runPluginAssemble plugin meta).servedMeta
      = s1 ++ ("     \"ShortDescription\": "
          ++ quoteJSONString (runPluginAssemble plugin meta).servedMeta.ShortDescription) ++ s2) := by
  refine ⟨?_, ?_, ?_, encodeMetadata_contains_short_description _⟩
  · by_cases hsd : meta.ShortDescription = "" <;>
      simp [runPluginAssemble, newMetadataSubcommandMeta, newMetadataSubcommandCall, hsd, h]
  · intro hsd
    simp [runPluginAssemble, newMetadataSubcommandMeta, newMetadataSubcommandCall, hsd]
  · intro hsd
    simp [runPluginAssemble, newMetadataSubcommandMeta, newMetadataSubcommandCall, hsd]

/-- C6 witness: the amended theorem at a plugin command with non-empty Short
text and an author record with empty short description. -/
theorem metadata_short_description_default_witness :
    (runPluginAssemble pluginWithShort emptyMeta).servedMeta.ShortDescription ≠ "" ∧
    (emptyMeta.ShortDescription = "" →
      (runPluginAssemble pluginWithShort emptyMeta).servedMeta.ShortDescription
        = pluginWithShort.short) ∧
    (emptyMeta.ShortDescription ≠ "" →
      (runPluginAssemble pluginWithShort emptyMeta).servedMeta = emptyMeta) ∧
    (∃ s1 s2, encodeMetadata (runPluginAssemble pluginWithShort emptyMeta).servedMeta
      = s1 ++ ("     \"ShortDescription\": "
          ++ quoteJSONString (runPluginAssemble pluginWithShort emptyMeta).servedMeta.ShortDescription) ++ s2) :=
  metadata_short_description_default emptyMeta pluginWithShort (by decide)
